import Mathlib

/-! Gateway, credential middleware and backend route tables.

A shallow embedding of the Go sources

* `shared/middleware.go`  (`JWTSecret`, `Claims`, `AuthMiddleware`),
* `services/gateway/main.go`  (`SetupRoutes`, `proxyRequest`),
* `services/auth/main.go`  (`SetupRoutes`, token issuing in `handleRegister` / `handleLogin`),
* `services/consulting/main.go`, `services/booking/main.go`  (`SetupRoutes`).

Go strings are modelled by `String`.  The two external dependencies the
sources call into, `golang-jwt/jwt/v5` and `gin-gonic/gin`, are not part of the
repository; the few operations of them that the sources use are modelled in the
namespaces `jwt` and `gin`, with everything cryptographic or encoding-related
left as a parameter (`jwt.Codec`).
-/

/-! ## `strings` -/

namespace strings

/-- Splitting a character sequence at every occurrence of `sep`: the pieces between
separators, in order; `n` separators give `n + 1` pieces, empty pieces included. -/
def splitChars (sep : Char) : List Char → List (List Char)
  | [] => [[]]
  | c :: cs =>
    if c = sep then [] :: splitChars sep cs
    else
      match splitChars sep cs with
      | [] => [[c]]
      | p :: ps => (c :: p) :: ps

/-- Go `strings.Split(s, sep)` for a separator of one character (the sources only split at
`" "`, the JWT library at `"."`). -/
def Split (s : String) (sep : Char) : List String :=
  (splitChars sep s.data).map String.mk

end strings

/-! ## `golang-jwt/jwt/v5` (external dependency) -/

namespace jwt

/-- The signing methods registered by the library, named by their `alg` value. -/
inductive SigningMethod where
  | HS256 | HS384 | HS512
  | RS256 | RS384 | RS512
  | PS256 | PS384 | PS512
  | ES256 | ES384 | ES512
  | EdDSA
  | None
  deriving DecidableEq, Repr

/-- `SigningMethod.Alg()`. -/
def SigningMethod.Alg : SigningMethod → String
  | .HS256 => "HS256" | .HS384 => "HS384" | .HS512 => "HS512"
  | .RS256 => "RS256" | .RS384 => "RS384" | .RS512 => "RS512"
  | .PS256 => "PS256" | .PS384 => "PS384" | .PS512 => "PS512"
  | .ES256 => "ES256" | .ES384 => "ES384" | .ES512 => "ES512"
  | .EdDSA => "EdDSA"
  | .None => "none"

/-- `jwt.GetSigningMethod(alg)`: the registered method of that name, if any. -/
def GetSigningMethod (alg : String) : Option SigningMethod :=
  [SigningMethod.HS256, .HS384, .HS512, .RS256, .RS384, .RS512, .PS256, .PS384, .PS512,
    .ES256, .ES384, .ES512, .EdDSA, .None].find? (fun m => m.Alg == alg)

/-- Whether the dynamic type of the method is `*jwt.SigningMethodHMAC`, that is whether
the type assertion `token.Method.(*jwt.SigningMethodHMAC)` succeeds.  The library has
three values of that type: `SigningMethodHS256`, `SigningMethodHS384`,
`SigningMethodHS512`. -/
def SigningMethod.isHMAC : SigningMethod → Bool
  | .HS256 | .HS384 | .HS512 => true
  | _ => false

/-- A JSON value of a claim: a string or an integer number. -/
inductive Value where
  | str (s : String)
  | num (n : Int)
  deriving DecidableEq, Repr

/-- `jwt.MapClaims`: claim name to value. -/
abbrev MapClaims := List (String × Value)

end jwt

/-! ## `shared/middleware.go`: data -/

namespace middleware

/-- `var JWTSecret = "your-secret-key-change-in-production"`. -/
def JWTSecret : String := "your-secret-key-change-in-production"

/-- The struct `Claims`: `UserID` (JSON name `user_id`), `Email` (JSON name `email`) and
the embedded `jwt.RegisteredClaims`, of which the fields the default validator reads are
kept: `ExpiresAt` (`exp`) and `NotBefore` (`nbf`), in whole seconds. -/
structure Claims where
  UserID : String
  Email : String
  ExpiresAt : Option Int
  NotBefore : Option Int
  deriving DecidableEq, Repr

end middleware

namespace jwt

open middleware (Claims)

/-- `jwt.Token` as the middleware sees it: the method looked up from the header's `alg`,
the decoded claims, and the `Valid` flag. -/
structure Token where
  Method : SigningMethod
  Claims : Claims
  Valid : Bool
  deriving DecidableEq, Repr

/-- `jwt.Keyfunc`: from the parsed, not yet verified token to the key (the bytes of a
string) or an error. -/
abbrev Keyfunc := Token → Except String String

/-- The type of `jwt.ParseWithClaims(tokenString, &Claims{}, keyFunc)`: `.error` stands
for a non-nil `err`, `.ok token` for a nil `err` together with the returned token. -/
abbrev Parser := String → Keyfunc → Except String Token

/-- The operations of the library that are taken as given: base64url and JSON coding of
the three segments, and the signature primitive of each method. -/
structure Codec where
  /-- From the first segment to the `alg` entry of the decoded JSON header. -/
  decodeHeader : String → Option String
  /-- From the second segment to the decoded JSON object. -/
  decodeClaims : String → Option MapClaims
  /-- `DecodeSegment` on the third segment. -/
  decodeSignature : String → Option String
  /-- `Method.Verify(signingString, sig, key) == nil`. -/
  verify : SigningMethod → String → String → String → Bool
  /-- The first segment of a token with this method. -/
  encodeHeader : SigningMethod → String
  /-- The second segment of a token with these claims. -/
  encodeClaims : MapClaims → String
  /-- `Method.Sign(signingString, key)`. -/
  sign : SigningMethod → String → String → String
  /-- `EncodeSegment` on a signature. -/
  encodeSignature : String → String

/-- A string field of a struct filled by `json.Unmarshal`: absent leaves the zero value,
a string is stored, a number is a type error. -/
def stringField (m : MapClaims) (name : String) : Option String :=
  match m.lookup name with
  | none => some ""
  | some (.str s) => some s
  | some (.num _) => none

/-- A `*NumericDate` field filled by `json.Unmarshal`: absent leaves nil, a number is
stored, a string is a type error. -/
def dateField (m : MapClaims) (name : String) : Option (Option Int) :=
  match m.lookup name with
  | none => some none
  | some (.num n) => some (some n)
  | some (.str _) => none

/-- `json.Unmarshal` of the claims object into `middleware.Claims`, by the JSON names of
its fields: `user_id`, `email`, and `exp`, `nbf` of the embedded registered claims (the
names of the object are taken to be distinct and spelled as the tags are). -/
def unmarshalClaims (m : MapClaims) : Option Claims :=
  match stringField m "user_id", stringField m "email", dateField m "exp", dateField m "nbf" with
  | some u, some e, some exp, some nbf => some ⟨u, e, exp, nbf⟩
  | _, _, _, _ => none

/-- The default validator on the registered claims at time `now` (seconds): a present
`exp` needs `now < exp`, a present `nbf` needs `nbf ≤ now`. -/
def validate (now : Int) (c : Claims) : Bool :=
  (match c.ExpiresAt with
    | none => true
    | some exp => decide (now < exp)) &&
  (match c.NotBefore with
    | none => true
    | some nbf => decide (nbf ≤ now))

/-- The method `ParseUnverified` assigns to a token string: three segments, a header that
decodes, and an `alg` that names a registered method. -/
def methodOf (lib : Codec) (tokenString : String) : Option SigningMethod :=
  match strings.Split tokenString '.' with
  | [h, _, _] => (lib.decodeHeader h).bind GetSigningMethod
  | _ => none

/-- `jwt.ParseWithClaims(tokenString, &Claims{}, keyFunc)` at time `now`: split into three
segments, decode header and claims, look the method up, decode the signature, ask
`keyFunc` for the key, verify the signature over the first two segments, validate the
registered claims; only then is the token returned with `Valid` set.  Every failure is a
non-nil `err`; the order of the steps decides only which error text is reported. -/
def ParseWithClaims (lib : Codec) (now : Int) : Parser := fun tokenString keyFunc =>
  match strings.Split tokenString '.' with
  | [h, p, s] =>
    match lib.decodeHeader h with
    | none => .error "token is malformed: could not decode header"
    | some alg =>
      match (lib.decodeClaims p).bind unmarshalClaims with
      | none => .error "token is malformed: could not decode claim"
      | some claims =>
        match GetSigningMethod alg with
        | none => .error "token is unverifiable: signing method (alg) is unavailable"
        | some method =>
          match lib.decodeSignature s with
          | none => .error "token is malformed: could not base64 decode signature"
          | some sig =>
            match keyFunc ⟨method, claims, false⟩ with
            | .error e => .error ("token is unverifiable: error while executing keyfunc: " ++ e)
            | .ok key =>
              if lib.verify method (h ++ "." ++ p) sig key then
                if validate now claims then .ok ⟨method, claims, true⟩
                else .error "token has invalid claims"
              else .error "token signature is invalid"
  | _ => .error "token is malformed: token contains an invalid number of segments"

/-- `jwt.NewWithClaims(method, claims).SignedString(key)`: header and claims segments, a
dot between them, then a dot and the encoded signature over the first two. -/
def SignedString (lib : Codec) (method : SigningMethod) (claims : MapClaims) (key : String) :
    String :=
  let signingString := lib.encodeHeader method ++ "." ++ lib.encodeClaims claims
  signingString ++ "." ++ lib.encodeSignature (lib.sign method signingString key)

/-- What the library promises about a token it writes itself with `method`, `claims` and
`key`: no segment holds a dot or a space (base64url), the header segment decodes to the
`alg` of the method, the claims segment to an object with the same value under every name,
the signature segment to the signature, and the method verifies the signature it made with
the same key. -/
def Codec.RoundTrips (lib : Codec) (method : SigningMethod) (claims : MapClaims)
    (key : String) : Prop :=
  ('.' ∉ (lib.encodeHeader method).data ∧ ' ' ∉ (lib.encodeHeader method).data) ∧
  ('.' ∉ (lib.encodeClaims claims).data ∧ ' ' ∉ (lib.encodeClaims claims).data) ∧
  ('.' ∉ (lib.encodeSignature (lib.sign method
      (lib.encodeHeader method ++ "." ++ lib.encodeClaims claims) key)).data ∧
    ' ' ∉ (lib.encodeSignature (lib.sign method
      (lib.encodeHeader method ++ "." ++ lib.encodeClaims claims) key)).data) ∧
  lib.decodeHeader (lib.encodeHeader method) = some method.Alg ∧
  (∃ decoded : MapClaims, lib.decodeClaims (lib.encodeClaims claims) = some decoded ∧
    ∀ name : String, decoded.lookup name = claims.lookup name) ∧
  lib.decodeSignature (lib.encodeSignature (lib.sign method
      (lib.encodeHeader method ++ "." ++ lib.encodeClaims claims) key)) =
    some (lib.sign method (lib.encodeHeader method ++ "." ++ lib.encodeClaims claims) key) ∧
  lib.verify method (lib.encodeHeader method ++ "." ++ lib.encodeClaims claims)
    (lib.sign method (lib.encodeHeader method ++ "." ++ lib.encodeClaims claims) key) key = true

end jwt

/-! ## `gin-gonic/gin` (external dependency): the context operations the sources call -/

namespace gin

/-- A field of a JSON object inside an array: a string or an integer number. -/
inductive Scalar where
  | str (s : String)
  | num (n : Int)
  deriving DecidableEq, Repr

/-- The values the handlers put into a JSON object: a string, or an array of objects. -/
inductive Value where
  | str (s : String)
  | objs (items : List (List (String × Scalar)))
  deriving DecidableEq, Repr

instance : Coe String Value := ⟨Value.str⟩

/-- `gin.H`, and more generally the JSON object handed to `c.JSON`. -/
abbrev H := List (String × Value)

/-- The calls a handler makes on its `*gin.Context`, in the order it makes them. -/
inductive Op where
  | JSON (code : Nat) (obj : H)
  | Abort
  | Set (key value : String)
  | Next
  deriving DecidableEq, Repr

/-- The part of `http.Request` the handlers read. -/
structure Request where
  Method : String
  Path : String
  Header : List (String × String)
  deriving DecidableEq, Repr

/-- `abortIndex`, the index `Abort` jumps to. -/
def abortIndex : Int := 63

/-- `gin.Context`: the request, the position in the handler chain, the key map, the
responses written so far, and (as instrumentation) the positions of the handlers entered. -/
structure Context where
  Request : Request
  index : Int
  Keys : List (String × String)
  written : List (Nat × H)
  entered : List Nat
  deriving DecidableEq, Repr

/-- `c.GetHeader(key)`: the value of the header, the empty string when it is absent. -/
def Context.GetHeader (c : Context) (key : String) : String :=
  (c.Request.Header.lookup key).getD ""

/-- A handler: the calls it makes, given the context it is entered with. -/
abbrev HandlerFunc := Context → List Op

/-- The effect of one call; `next` is what `c.Next()` does. -/
def Context.apply (next : Context → Context) (c : Context) : Op → Context
  | .JSON code obj => { c with written := c.written ++ [(code, obj)] }
  | .Abort => { c with index := abortIndex }
  | .Set key value => { c with Keys := (key, value) :: c.Keys.filter (fun kv => kv.1 != key) }
  | .Next => next c

/-- The effect of a handler body. -/
def Context.exec (next : Context → Context) (c : Context) (ops : List Op) : Context :=
  ops.foldl (Context.apply next) c

/-- The statement `c.index++`. -/
def Context.advance (c : Context) : Context :=
  { c with index := c.index + 1 }

/-- Recording that the handler at the current position is entered. -/
def Context.enter (c : Context) : Context :=
  { c with entered := c.entered ++ [c.index.toNat] }

/-- The loop of `c.Next()`, `for c.index < len(c.handlers) { c.handlers[c.index](c); c.index++ }`,
with `fuel` bounding the number of handler entries along any path. -/
def Context.loop (handlers : List HandlerFunc) : Nat → Context → Context
  | 0, c => c
  | fuel + 1, c =>
    if 0 ≤ c.index ∧ c.index < handlers.length then
      match handlers[c.index.toNat]? with
      | none => c
      | some h =>
        let c1 := c.enter.exec (fun d => Context.loop handlers fuel d.advance) (h c.enter)
        Context.loop handlers fuel c1.advance
    else c

/-- `c.Next()`: `c.index++`, then the loop. -/
def Context.Next (handlers : List HandlerFunc) (fuel : Nat) (c : Context) : Context :=
  Context.loop handlers fuel c.advance

/-- The engine serving a request with the handler chain of its route: a reset context
(`index = -1`, nothing stored, nothing written), then `c.Next()`. -/
def serve (handlers : List HandlerFunc) (fuel : Nat) (req : Request) : Context :=
  Context.Next handlers fuel ⟨req, -1, [], [], []⟩

end gin

/-! ## `shared/middleware.go`: `AuthMiddleware` -/

namespace middleware

open gin (Op)

/-- The key function `AuthMiddleware` passes to the parser: the secret for a method of type
`*jwt.SigningMethodHMAC`, an error naming the `alg` otherwise. -/
def keyFunc : jwt.Keyfunc := fun token =>
  if !token.Method.isHMAC then .error ("unexpected signing method: " ++ token.Method.Alg)
  else .ok JWTSecret

/-- The handler returned by `AuthMiddleware()`, with the library call
`jwt.ParseWithClaims` as a parameter. -/
def AuthMiddleware (ParseWithClaims : jwt.Parser) : gin.HandlerFunc := fun c =>
  let authHeader := c.GetHeader "Authorization"
  if authHeader = "" then
    [.JSON 401 [("error", "missing authorization header")], .Abort]
  else
    let parts := strings.Split authHeader ' '
    if parts.length ≠ 2 ∨ parts.getD 0 "" ≠ "Bearer" then
      [.JSON 401 [("error", "invalid authorization header")], .Abort]
    else
      match ParseWithClaims (parts.getD 1 "") keyFunc with
      | .error _ => [.JSON 401 [("error", "invalid token")], .Abort]
      | .ok token =>
        if !token.Valid then [.JSON 401 [("error", "invalid token")], .Abort]
        else [.Set "user_id" token.Claims.UserID, .Set "email" token.Claims.Email, .Next]

end middleware

/-! ## `gin-gonic/gin` (external dependency): routing -/

namespace gin

/-- `gin.RouteInfo`: a registered route, with a tag naming its handler. -/
structure RouteInfo (α : Type) where
  Method : String
  Path : String
  Handler : α
  deriving DecidableEq, Repr

/-- One segment of a route pattern against one segment of a path: a pattern segment that
starts with `:` is a named parameter and matches any one non-empty segment; any other
pattern segment is a literal and matches only itself. -/
def matchSegment (pattern segment : String) : Bool :=
  if pattern.data.head? = some ':' then segment != "" else pattern == segment

/-- Matching segment by segment: the same number of segments, each matching. -/
def matchSegments : List String → List String → Bool
  | [], [] => true
  | p :: ps, s :: ss => matchSegment p s && matchSegments ps ss
  | _, _ => false

/-- A route pattern against a request path, the segments being the pieces between slashes
(the patterns of the sources have literal segments and `:name` parameters, no `*name`). -/
def matchPath (pattern path : String) : Bool :=
  matchSegments (strings.Split pattern '/') (strings.Split path '/')

/-- Whether a route matches a request: the same method, and a pattern that matches the
path. -/
def RouteInfo.matches {α : Type} (r : RouteInfo α) (method path : String) : Bool :=
  r.Method == method && matchPath r.Path path

/-- The route the router finds for a request: the first matching entry in declaration
order, if any. -/
def resolve {α : Type} (routes : List (RouteInfo α)) (method path : String) :
    Option (RouteInfo α) :=
  routes.find? (fun r => r.matches method path)

/-- The path `redirectTrailingSlash` redirects to: without the trailing slash when the path
has one (and is longer than the slash alone), with a slash added otherwise. -/
def toggleTrailingSlash (path : String) : String :=
  if 1 < path.data.length ∧ path.data.getLast? = some '/' then ⟨path.data.dropLast⟩
  else path ++ "/"

/-- What `Engine.handleHTTPRequest` does with a request: run the handler chain of the
matched route, redirect to the path with or without the trailing slash, or answer
404 `404 page not found`. -/
inductive Dispatch (α : Type) where
  | route (r : RouteInfo α)
  | redirect (code : Nat)
  | notFound
  deriving DecidableEq, Repr

/-- `Engine.handleHTTPRequest` of an engine made by `gin.Default()`, where
`RedirectTrailingSlash` is on and `RedirectFixedPath`, `HandleMethodNotAllowed` are off:
the matched route; else, when the route cannot be matched but a handler for the path with
(without) the trailing slash exists, a redirect with status 301 for GET and 307 for every
other method (never for CONNECT or the path `/`); else not found. -/
def dispatch {α : Type} (routes : List (RouteInfo α)) (method path : String) : Dispatch α :=
  match resolve routes method path with
  | some r => .route r
  | none =>
    if method ≠ "CONNECT" ∧ path ≠ "/" ∧
        (resolve routes method (toggleTrailingSlash path)).isSome then
      .redirect (if method = "GET" then 301 else 307)
    else .notFound

/-- The outcome of serving a request: the matched route with the context its handler
chain left, a redirect, or the not-found response. -/
inductive Served (α : Type) where
  | handled (r : RouteInfo α) (c : Context)
  | redirected (code : Nat)
  | notFound
  deriving DecidableEq, Repr

/-- `Engine.ServeHTTP`: dispatch, and for a matched route run its chain (`chain` gives the
handler functions behind a tag), with one unit of fuel for each handler of the chain. -/
def ServeHTTP {α : Type} (routes : List (RouteInfo α)) (chain : α → List HandlerFunc)
    (req : Request) : Served α :=
  match dispatch routes req.Method req.Path with
  | .route r => .handled r (serve (chain r.Handler) (chain r.Handler).length req)
  | .redirect code => .redirected code
  | .notFound => .notFound

end gin

/-! ## `services/gateway/main.go` -/

namespace gateway

open gin (Op RouteInfo)

/-- The handlers a gateway route can carry: the health closure, `proxyRequest(targetURL)`. -/
inductive Handler where
  | health
  | proxyRequest (targetURL : String)
  deriving DecidableEq, Repr

/-- The table `GatewayServer.SetupRoutes` registers, in declaration order. -/
def GatewayServer.SetupRoutes : List (RouteInfo Handler) :=
  [ ⟨"GET", "/health", .health⟩,
    ⟨"POST", "/auth/register", .proxyRequest "http://auth-service:3001"⟩,
    ⟨"POST", "/auth/login", .proxyRequest "http://auth-service:3001"⟩,
    ⟨"GET", "/auth/validate", .proxyRequest "http://auth-service:3001"⟩,
    ⟨"GET", "/consultants", .proxyRequest "http://consulting-service:3002"⟩,
    ⟨"POST", "/consultants", .proxyRequest "http://consulting-service:3002"⟩,
    ⟨"GET", "/consultants/:id", .proxyRequest "http://consulting-service:3002"⟩,
    ⟨"GET", "/bookings", .proxyRequest "http://booking-service:3003"⟩,
    ⟨"POST", "/bookings", .proxyRequest "http://booking-service:3003"⟩,
    ⟨"GET", "/bookings/:id", .proxyRequest "http://booking-service:3003"⟩ ]

/-- The closure registered for `GET /health`. -/
def healthHandler : gin.HandlerFunc := fun _ =>
  [.JSON 200 [("status", "healthy")]]

/-- The handler `GatewayServer.proxyRequest(targetURL)` returns. -/
def GatewayServer.proxyRequest (targetURL : String) : gin.HandlerFunc := fun c =>
  [.JSON 200 [("message", "Proxying to " ++ targetURL), ("path", c.Request.Path)]]

/-- The handler chain behind each tag: one handler per route (the gateway registers no
middleware of its own; the logger and the recovery of `gin.Default()` are left out). -/
def chain : Handler → List gin.HandlerFunc
  | .health => [healthHandler]
  | .proxyRequest targetURL => [GatewayServer.proxyRequest targetURL]

/-- The gateway serving a request. -/
def GatewayServer.ServeHTTP (req : gin.Request) : gin.Served Handler :=
  gin.ServeHTTP GatewayServer.SetupRoutes chain req

end gateway

/-! ## `services/auth/main.go` -/

namespace auth

open gin (Op RouteInfo)

inductive Handler where
  | health | handleRegister | handleLogin | handleValidate
  deriving DecidableEq, Repr

/-- The table `AuthServer.SetupRoutes` registers. -/
def AuthServer.SetupRoutes : List (RouteInfo Handler) :=
  [ ⟨"GET", "/health", .health⟩,
    ⟨"POST", "/register", .handleRegister⟩,
    ⟨"POST", "/login", .handleLogin⟩,
    ⟨"GET", "/validate", .handleValidate⟩ ]

structure User where
  ID : String
  Email : String
  Password : String
  deriving DecidableEq, Repr

structure LoginRequest where
  Email : String
  Password : String
  deriving DecidableEq, Repr

/-- The claims both handlers put into the token, `now` being `time.Now().Unix()`:
`user_id`, `email`, and `exp` 24 hours later. -/
def tokenClaims (now : Int) (user : User) : jwt.MapClaims :=
  [("user_id", .str user.ID), ("email", .str user.Email), ("exp", .num (now + 24 * 3600))]

/-- The token string both handlers build: `jwt.NewWithClaims(jwt.SigningMethodHS256, ...)`
signed with the bytes of the literal secret. -/
def tokenString (lib : jwt.Codec) (now : Int) (user : User) : String :=
  jwt.SignedString lib .HS256 (tokenClaims now user) "your-secret-key-change-in-production"

/-- `AuthServer.handleRegister`.  `bound` is the outcome of `c.ShouldBindJSON(&req)`, `id`
the identifier the handler makes up for the new user (the source writes
`"user-" + time.Now().Unix().String()`), `insert` whether the `INSERT` succeeds. -/
def AuthServer.handleRegister (lib : jwt.Codec) (now : Int) (id : String)
    (bound : Except String LoginRequest) (insert : User → Bool) : List Op :=
  match bound with
  | .error e => [.JSON 400 [("error", e)]]
  | .ok req =>
    let user : User := ⟨id, req.Email, req.Password⟩
    if !insert user then [.JSON 400 [("error", "user already exists")]]
    else [.JSON 201 [("token", tokenString lib now user)]]

/-- `AuthServer.handleLogin`.  `query` is the `SELECT id, email ... WHERE email = $1 AND
password = $2` with its `Scan`: the row found, or none. -/
def AuthServer.handleLogin (lib : jwt.Codec) (now : Int)
    (bound : Except String LoginRequest) (query : String → String → Option (String × String)) :
    List Op :=
  match bound with
  | .error e => [.JSON 400 [("error", e)]]
  | .ok req =>
    match query req.Email req.Password with
    | none => [.JSON 401 [("error", "invalid credentials")]]
    | some (id, email) =>
      let user : User := ⟨id, email, ""⟩
      [.JSON 200 [("token", tokenString lib now user)]]

end auth

/-! ## `services/consulting/main.go` -/

namespace consulting

inductive Handler where
  | health | handleGetConsultants | handleCreateConsultant | handleGetConsultant
  deriving DecidableEq, Repr

/-- The table `ConsultingServer.SetupRoutes` registers. -/
def ConsultingServer.SetupRoutes : List (gin.RouteInfo Handler) :=
  [ ⟨"GET", "/health", .health⟩,
    ⟨"GET", "/consultants", .handleGetConsultants⟩,
    ⟨"POST", "/consultants", .handleCreateConsultant⟩,
    ⟨"GET", "/consultants/:id", .handleGetConsultant⟩ ]

end consulting

/-! ## `services/booking/main.go` -/

namespace booking

open gin (Op)

inductive Handler where
  | health | handleGetBookings | handleCreateBooking | handleGetBooking | handleUpdateBooking
  deriving DecidableEq, Repr

/-- The table `BookingServer.SetupRoutes` registers. -/
def BookingServer.SetupRoutes : List (gin.RouteInfo Handler) :=
  [ ⟨"GET", "/health", .health⟩,
    ⟨"GET", "/bookings", .handleGetBookings⟩,
    ⟨"POST", "/bookings", .handleCreateBooking⟩,
    ⟨"GET", "/bookings/:id", .handleGetBooking⟩,
    ⟨"PUT", "/bookings/:id", .handleUpdateBooking⟩ ]

/-- The struct `Booking`, `ScheduledAt` in its JSON rendering. -/
structure Booking where
  ID : String
  ConsultantID : String
  UserID : String
  ScheduledAt : String
  Duration : Int
  Status : String
  deriving DecidableEq, Repr

/-- The JSON object of a booking, by the JSON names of its fields. -/
def Booking.toJSON (b : Booking) : List (String × gin.Scalar) :=
  [("id", .str b.ID), ("consultant_id", .str b.ConsultantID), ("user_id", .str b.UserID),
    ("scheduled_at", .str b.ScheduledAt), ("duration", .num b.Duration), ("status", .str b.Status)]

/-- The rows of a query scanned one by one: all of them, or none when a `Scan` fails. -/
def scanAll : List (Option Booking) → Option (List Booking)
  | [] => some []
  | none :: _ => none
  | some b :: rest => (scanAll rest).map (fun bs => b :: bs)

/-- `BookingServer.handleGetBookings`.  `query` is the outcome of the `SELECT`: an error, or
the rows, each of which scans into a booking or fails to. -/
def BookingServer.handleGetBookings (query : Except String (List (Option Booking))) : List Op :=
  match query with
  | .error _ => [.JSON 500 [("error", "failed to fetch bookings")]]
  | .ok rows =>
    match scanAll rows with
    | none => [.JSON 500 [("error", "failed to scan booking")]]
    | some bookings => [.JSON 200 [("bookings", .objs (bookings.map Booking.toJSON))]]

end booking

/-! ## The backend behind each base address -/

/-- The service that listens behind a base address of the gateway table (each service's
`main` defaults to the port of its address: 3001, 3002, 3003), given by the methods and
patterns it registers. -/
def backendRoutes (targetURL : String) : Option (List (String × String)) :=
  if targetURL = "http://auth-service:3001" then
    some (auth.AuthServer.SetupRoutes.map (fun r => (r.Method, r.Path)))
  else if targetURL = "http://consulting-service:3002" then
    some (consulting.ConsultingServer.SetupRoutes.map (fun r => (r.Method, r.Path)))
  else if targetURL = "http://booking-service:3003" then
    some (booking.BookingServer.SetupRoutes.map (fun r => (r.Method, r.Path)))
  else none

/-- Whether the backend behind a gateway route registers a route with the same method and
the same pattern (true for a route that is not proxied). -/
def mirrored (r : gin.RouteInfo gateway.Handler) : Bool :=
  match r.Handler with
  | .health => true
  | .proxyRequest targetURL =>
    match backendRoutes targetURL with
    | none => false
    | some routes => routes.contains (r.Method, r.Path)

/-! ## A small codec and sample data, used to instantiate the statements -/

namespace sample

open jwt (Codec MapClaims Value SigningMethod)

/-- A decimal numeral read digit by digit. -/
def readNat : List Char → Option Nat
  | [] => none
  | cs => cs.foldl (fun acc c =>
      acc.bind (fun n => if c.isDigit then some (10 * n + (c.toNat - 48)) else none)) (some 0)

/-- One claim written as `name=sVALUE` for a string and `name=nDIGITS` for a number. -/
def writeClaim : String × Value → String
  | (k, .str s) => k ++ "=s" ++ s
  | (k, .num n) => k ++ "=n" ++ String.mk (Nat.toDigits 10 n.toNat)

/-- Reading back what `writeClaim` wrote. -/
def readClaim (cs : List Char) : Option (String × Value) :=
  match strings.splitChars '=' cs with
  | [k, 's' :: v] => some (String.mk k, .str (String.mk v))
  | [k, 'n' :: d] => (readNat d).map (fun n => (String.mk k, .num n))
  | _ => none

/-- A readable stand-in for base64url, JSON and HMAC: the header segment is the `alg`
name, the claims segment lists the claims separated by commas, and the signature of a text
under a key is the key followed by the text with its dots removed. -/
def codec : Codec where
  decodeHeader := fun h => some h
  decodeClaims := fun p => (strings.splitChars ',' p.data).mapM readClaim
  decodeSignature := fun s => some s
  verify := fun _ text sig key => sig == key ++ String.mk (text.data.filter (fun c => c != '.'))
  encodeHeader := fun m => m.Alg
  encodeClaims := fun m => String.intercalate "," (m.map writeClaim)
  sign := fun _ text key => key ++ String.mk (text.data.filter (fun c => c != '.'))
  encodeSignature := fun s => s

/-- A user of the auth service. -/
def user : auth.User := ⟨"user-17", "ann@example", "pw"⟩

/-- The token the auth service issues to `user` at time 1000. -/
def token : String := auth.tokenString codec 1000 user

/-- A request carrying an `Authorization` header. -/
def request (authorization : String) : gin.Request :=
  ⟨"GET", "/bookings", [("Authorization", authorization)]⟩

/-- A handler that answers 200 and does nothing else. -/
def leaf : gin.HandlerFunc := fun _ => [.JSON 200 [("status", "ok")]]

end sample

/-! ## Auxiliary notions for the route tables -/

namespace gin

/-- Whether two lists of pattern segments leave room for a common path: the same number of
segments and, at each position, a parameter on one side or equal literals. -/
def overlap : List String → List String → Bool
  | [], [] => true
  | p :: ps, q :: qs =>
    (p.data.head? = some ':' || q.data.head? = some ':' || p == q) && overlap ps qs
  | _, _ => false

/-- Whether the last segment of a pattern matches the empty segment. -/
def lastMatchesEmpty : List String → Bool
  | [] => false
  | [p] => matchSegment p ""
  | _ :: ps => lastMatchesEmpty ps

end gin

/-! ## Facts about splitting -/

namespace strings

theorem splitChars_ne_nil (sep : Char) (l : List Char) : splitChars sep l ≠ [] := by
  cases l with
  | nil => simp [splitChars]
  | cons c cs =>
    unfold splitChars
    split
    · simp
    · split <;> simp

theorem splitChars_of_not_mem (sep : Char) (l : List Char) (h : sep ∉ l) :
    splitChars sep l = [l] := by
  induction l with
  | nil => rfl
  | cons c cs ih =>
    have hc : ¬ c = sep := fun e => h (by simp [e])
    have hcs : sep ∉ cs := fun e => h (by simp [e])
    simp [splitChars, hc, ih hcs]

theorem splitChars_append (sep : Char) (a b : List Char) (h : sep ∉ a) :
    splitChars sep (a ++ sep :: b) = a :: splitChars sep b := by
  induction a with
  | nil => simp [splitChars]
  | cons c cs ih =>
    have hc : ¬ c = sep := fun e => h (by simp [e])
    have hcs : sep ∉ cs := fun e => h (by simp [e])
    simp [splitChars, hc, ih hcs]

/-- The first piece has no separator; a single piece is the whole input; with more pieces
the input is the first piece, a separator, and an input that splits into the others. -/
theorem splitChars_cons (sep : Char) (l p : List Char) (ps : List (List Char))
    (h : splitChars sep l = p :: ps) :
    sep ∉ p ∧ (ps = [] → l = p) ∧
      (ps ≠ [] → ∃ rest, l = p ++ sep :: rest ∧ splitChars sep rest = ps) := by
  induction l generalizing p ps with
  | nil =>
    simp [splitChars] at h
    obtain ⟨rfl, rfl⟩ := h
    simp
  | cons c cs ih =>
    unfold splitChars at h
    by_cases hc : c = sep
    · simp [hc] at h
      obtain ⟨rfl, rfl⟩ := h
      refine ⟨by simp, ?_, ?_⟩
      · intro e; exact absurd e (splitChars_ne_nil sep cs)
      · intro _; exact ⟨cs, by simp [hc], rfl⟩
    · simp only [hc, if_false] at h
      cases hs : splitChars sep cs with
      | nil => exact absurd hs (splitChars_ne_nil sep cs)
      | cons q qs =>
        rw [hs] at h
        simp at h
        obtain ⟨rfl, rfl⟩ := h
        obtain ⟨h1, h2, h3⟩ := ih q qs hs
        refine ⟨?_, ?_, ?_⟩
        · simp [h1]; exact fun e => hc e.symm
        · intro e; simp [h2 e]
        · intro e
          obtain ⟨rest, hr, hr2⟩ := h3 e
          exact ⟨rest, by simp [hr], hr2⟩

/-- A split into exactly two pieces: the input is the first piece, one separator, the
second piece, and neither piece holds a separator. -/
theorem splitChars_eq_pair (sep : Char) (l a b : List Char) :
    splitChars sep l = [a, b] ↔ l = a ++ sep :: b ∧ sep ∉ a ∧ sep ∉ b := by
  constructor
  · intro h
    obtain ⟨h1, _, h3⟩ := splitChars_cons sep l a [b] h
    obtain ⟨rest, hr, hr2⟩ := h3 (by simp)
    obtain ⟨h4, h5, _⟩ := splitChars_cons sep rest b [] hr2
    have : rest = b := h5 rfl
    subst this
    exact ⟨hr, h1, h4⟩
  · rintro ⟨rfl, ha, hb⟩
    rw [splitChars_append sep a b ha, splitChars_of_not_mem sep b hb]

/-- The pieces of a header made of `Bearer`, one space and a token without a space. -/
theorem split_bearer_token (tok : String) (h : ' ' ∉ tok.data) :
    Split ("Bearer " ++ tok) ' ' = ["Bearer", tok] := by
  have hd : ("Bearer " ++ tok).data = "Bearer".data ++ ' ' :: tok.data := rfl
  have hs : splitChars ' ' ("Bearer " ++ tok).data = ["Bearer".data, tok.data] := by
    rw [hd]
    exact (splitChars_eq_pair ' ' _ _ _).2 ⟨rfl, by decide, h⟩
  unfold Split
  rw [hs]
  rfl

/-- The header check of `AuthMiddleware` passes exactly on `Bearer`, one space, and a token
without a space (the token may be empty). -/
theorem split_bearer (hdr : String) :
    ((Split hdr ' ').length = 2 ∧ (Split hdr ' ').getD 0 "" = "Bearer") ↔
      ∃ tok : String, ' ' ∉ tok.data ∧ hdr = "Bearer " ++ tok := by
  constructor
  · rintro ⟨hlen, h0⟩
    unfold Split at hlen h0
    match hs : splitChars ' ' hdr.data, hlen, h0 with
    | [a, b], _, h0 =>
      simp at h0
      obtain ⟨hl, ha, hb⟩ := (splitChars_eq_pair ' ' hdr.data a b).1 hs
      refine ⟨⟨b⟩, hb, ?_⟩
      apply String.ext
      rw [hl]
      have ha2 : a = "Bearer".data := by rw [← h0]
      rw [ha2]
      rfl
  · rintro ⟨tok, htok, rfl⟩
    rw [split_bearer_token tok htok]
    exact ⟨rfl, rfl⟩

end strings

/-! ## Facts about the handler chain -/

namespace gin

/-- Past the end of the chain the loop of `Next` does nothing. -/
theorem Context.loop_of_length_le (handlers : List HandlerFunc) (fuel : Nat) (c : Context)
    (h : (handlers.length : Int) ≤ c.index) : Context.loop handlers fuel c = c := by
  cases fuel with
  | zero => rfl
  | succ n =>
    have : ¬ (0 ≤ c.index ∧ c.index < (handlers.length : Int)) := by omega
    simp [Context.loop, this]

/-- One turn of the loop of `Next` at a position inside the chain. -/
theorem Context.loop_enter (handlers : List HandlerFunc) (fuel : Nat) (c : Context)
    (h : HandlerFunc) (hi : 0 ≤ c.index) (hget : handlers[c.index.toNat]? = some h) :
    Context.loop handlers (fuel + 1) c =
      Context.loop handlers fuel
        (c.enter.exec (fun d => Context.loop handlers fuel d.advance) (h c.enter)).advance := by
  have hlt : c.index.toNat < handlers.length := by
    rcases Nat.lt_or_ge c.index.toNat handlers.length with h1 | h1
    · exact h1
    · rw [List.getElem?_eq_none h1] at hget
      cases hget
  have hcond : 0 ≤ c.index ∧ c.index < (handlers.length : Int) := by omega
  simp only [Context.loop, hcond, and_self, if_true, hget]

/-- A body without `Next` and `Abort` leaves the position in the chain alone. -/
theorem Context.exec_index (next : Context → Context) (ops : List Op) (c : Context)
    (h : ∀ op ∈ ops, op ≠ Op.Next ∧ op ≠ Op.Abort) : (c.exec next ops).index = c.index := by
  induction ops generalizing c with
  | nil => rfl
  | cons op ops ih =>
    have hop := h op (by simp)
    have hrest : ∀ o ∈ ops, o ≠ Op.Next ∧ o ≠ Op.Abort := fun o ho => h o (by simp [ho])
    have hstep : (c.apply next op).index = c.index := by
      cases op with
      | JSON code obj => rfl
      | Abort => exact absurd rfl hop.2
      | Set key value => rfl
      | Next => exact absurd rfl hop.1
    show ((c.apply next op).exec next ops).index = c.index
    rw [ih (c.apply next op) hrest, hstep]

/-- A body without `Next` does the same whatever `Next` would do. -/
theorem Context.exec_congr (next next2 : Context → Context) (ops : List Op) (c : Context)
    (h : ∀ op ∈ ops, op ≠ Op.Next) : c.exec next ops = c.exec next2 ops := by
  induction ops generalizing c with
  | nil => rfl
  | cons op ops ih =>
    have hop := h op (by simp)
    have hrest : ∀ o ∈ ops, o ≠ Op.Next := fun o ho => h o (by simp [ho])
    have hstep : c.apply next op = c.apply next2 op := by
      cases op with
      | JSON code obj => rfl
      | Abort => rfl
      | Set key value => rfl
      | Next => exact absurd rfl hop
    show (c.apply next op).exec next ops = (c.apply next2 op).exec next2 ops
    rw [hstep, ih (c.apply next2 op) hrest]

/-- A chain of one handler that neither calls `Next` nor aborts: one unit of fuel is
enough, and more changes nothing. -/
theorem serve_leaf (h : HandlerFunc) (fuel : Nat) (req : Request)
    (hleaf : ∀ c, ∀ op ∈ h c, op ≠ Op.Next ∧ op ≠ Op.Abort) :
    serve [h] (fuel + 1) req =
      { Context.exec id ⟨req, 0, [], [], [0]⟩ (h ⟨req, 0, [], [], [0]⟩) with index := 1 } := by
  have h0 : serve [h] (fuel + 1) req = Context.loop [h] (fuel + 1) ⟨req, 0, [], [], []⟩ := rfl
  rw [h0, Context.loop_enter [h] fuel ⟨req, 0, [], [], []⟩ h (by simp) (by simp)]
  have h1 : (Context.enter ⟨req, 0, [], [], []⟩) = ⟨req, 0, [], [], [0]⟩ := rfl
  rw [h1]
  have hn := hleaf ⟨req, 0, [], [], [0]⟩
  generalize h ⟨req, 0, [], [], [0]⟩ = ops at hn
  rw [Context.exec_congr _ id ops _ (fun op ho => (hn op ho).1)]
  have hidx := Context.exec_index id ops ⟨req, 0, [], [], [0]⟩ hn
  generalize Context.exec id ⟨req, 0, [], [], [0]⟩ ops = d at hidx
  rw [Context.loop_of_length_le _ _ d.advance (by simp [Context.advance, hidx])]
  simp [Context.advance, hidx]

/-- A first handler that writes one response and aborts: nothing else of the chain is
entered. -/
theorem serve_abort (first : HandlerFunc) (rest : List HandlerFunc) (fuel : Nat)
    (req : Request) (code : Nat) (obj : H)
    (hfirst : first ⟨req, 0, [], [], [0]⟩ = [Op.JSON code obj, Op.Abort])
    (hlen : rest.length < 63) :
    serve (first :: rest) (fuel + 1) req = ⟨req, 64, [], [(code, obj)], [0]⟩ := by
  have h0 : serve (first :: rest) (fuel + 1) req =
      Context.loop (first :: rest) (fuel + 1) ⟨req, 0, [], [], []⟩ := rfl
  rw [h0, Context.loop_enter (first :: rest) fuel ⟨req, 0, [], [], []⟩ first (by simp) (by simp)]
  have h1 : (Context.enter ⟨req, 0, [], [], []⟩) = ⟨req, 0, [], [], [0]⟩ := rfl
  rw [h1, hfirst]
  have h2 : (Context.exec (fun d => Context.loop (first :: rest) fuel d.advance)
      ⟨req, 0, [], [], [0]⟩ [Op.JSON code obj, Op.Abort]).advance =
      ⟨req, 64, [], [(code, obj)], [0]⟩ := rfl
  rw [h2]
  apply Context.loop_of_length_le
  simp; omega

/-- A first handler that stores two keys and calls `Next`, followed by one handler that
neither calls `Next` nor aborts: the second handler is entered once, with the two keys
stored and nothing written. -/
theorem serve_next (first next : HandlerFunc) (fuel : Nat) (req : Request)
    (k1 v1 k2 v2 : String) (hk : k1 ≠ k2)
    (hfirst : first ⟨req, 0, [], [], [0]⟩ = [Op.Set k1 v1, Op.Set k2 v2, Op.Next])
    (hnext : ∀ c, ∀ op ∈ next c, op ≠ Op.Next ∧ op ≠ Op.Abort) :
    serve [first, next] (fuel + 2) req =
      { Context.exec id ⟨req, 1, [(k2, v2), (k1, v1)], [], [0, 1]⟩
          (next ⟨req, 1, [(k2, v2), (k1, v1)], [], [0, 1]⟩) with index := 3 } := by
  have hk2 : (k1 != k2) = true := by simpa using hk
  have h0 : serve [first, next] (fuel + 2) req =
      Context.loop [first, next] (fuel + 2) ⟨req, 0, [], [], []⟩ := rfl
  rw [h0, Context.loop_enter [first, next] (fuel + 1) ⟨req, 0, [], [], []⟩ first (by simp) (by simp)]
  have h1 : (Context.enter ⟨req, 0, [], [], []⟩) = ⟨req, 0, [], [], [0]⟩ := rfl
  rw [h1, hfirst]
  have h2 : Context.exec (fun d => Context.loop [first, next] (fuel + 1) d.advance)
      ⟨req, 0, [], [], [0]⟩ [Op.Set k1 v1, Op.Set k2 v2, Op.Next] =
      Context.loop [first, next] (fuel + 1) ⟨req, 1, [(k2, v2), (k1, v1)], [], [0]⟩ := by
    simp [Context.exec, Context.apply, Context.advance, hk2]
  rw [h2, Context.loop_enter [first, next] fuel ⟨req, 1, [(k2, v2), (k1, v1)], [], [0]⟩ next
    (by simp) (by simp)]
  have h3 : (Context.enter ⟨req, 1, [(k2, v2), (k1, v1)], [], [0]⟩) =
      ⟨req, 1, [(k2, v2), (k1, v1)], [], [0, 1]⟩ := rfl
  rw [h3]
  have hn := hnext ⟨req, 1, [(k2, v2), (k1, v1)], [], [0, 1]⟩
  generalize next ⟨req, 1, [(k2, v2), (k1, v1)], [], [0, 1]⟩ = ops at hn
  rw [Context.exec_congr _ id ops _ (fun op ho => (hn op ho).1)]
  have hidx := Context.exec_index id ops ⟨req, 1, [(k2, v2), (k1, v1)], [], [0, 1]⟩ hn
  generalize Context.exec id ⟨req, 1, [(k2, v2), (k1, v1)], [], [0, 1]⟩ ops = d at hidx
  rw [Context.loop_of_length_le _ _ d.advance (by simp [Context.advance, hidx]),
    Context.loop_of_length_le _ _ d.advance.advance (by simp [Context.advance, hidx])]
  simp [Context.advance, hidx]

end gin

/-! ## `AuthMiddleware` branch by branch -/

namespace middleware

open gin (Op Context)

theorem bearer_ne_empty (tok : String) : "Bearer " ++ tok ≠ "" := by
  intro h
  have := congrArg String.data h
  simp at this

theorem bearer_inj (a b : String) (h : "Bearer " ++ a = "Bearer " ++ b) : a = b := by
  have := congrArg String.data h
  simp only [String.data_append, List.append_cancel_left_eq] at this
  exact String.ext this

/-- The handler reads nothing of the context but the request. -/
theorem AuthMiddleware_request (parse : jwt.Parser) (c d : Context) (h : c.Request = d.Request) :
    AuthMiddleware parse c = AuthMiddleware parse d := by
  simp only [AuthMiddleware, Context.GetHeader, h]

theorem AuthMiddleware_missing (parse : jwt.Parser) (c : Context)
    (h : c.GetHeader "Authorization" = "") :
    AuthMiddleware parse c = [.JSON 401 [("error", "missing authorization header")], .Abort] := by
  simp [AuthMiddleware, h]

theorem AuthMiddleware_invalid (parse : jwt.Parser) (c : Context)
    (h : c.GetHeader "Authorization" ≠ "")
    (hparts : (strings.Split (c.GetHeader "Authorization") ' ').length ≠ 2 ∨
      (strings.Split (c.GetHeader "Authorization") ' ').getD 0 "" ≠ "Bearer") :
    AuthMiddleware parse c = [.JSON 401 [("error", "invalid authorization header")], .Abort] := by
  simp only [AuthMiddleware, h, if_false, hparts, if_true]

theorem AuthMiddleware_bearer (parse : jwt.Parser) (c : Context) (tok : String)
    (h : c.GetHeader "Authorization" = "Bearer " ++ tok) (htok : ' ' ∉ tok.data) :
    AuthMiddleware parse c =
      match parse tok keyFunc with
      | .error _ => [.JSON 401 [("error", "invalid token")], .Abort]
      | .ok token =>
        if !token.Valid then [.JSON 401 [("error", "invalid token")], .Abort]
        else [.Set "user_id" token.Claims.UserID, .Set "email" token.Claims.Email, .Next] := by
  simp only [AuthMiddleware, h, bearer_ne_empty, if_false, strings.split_bearer_token tok htok]
  simp

end middleware

/-! ## Facts about route tables -/

namespace gin

theorem find?_eq_some_of_unique {α : Type} (p : α → Bool) (l : List α) (a : α)
    (ha : a ∈ l) (hp : p a = true) (huniq : ∀ b ∈ l, p b = true → b = a) :
    l.find? p = some a := by
  cases h : l.find? p with
  | none =>
    rw [List.find?_eq_none] at h
    exact absurd hp (h a ha)
  | some b =>
    have hb := List.find?_some h
    have hmem := List.mem_of_find?_eq_some h
    rw [huniq b hmem hb]

/-- Two patterns that match the same segments overlap. -/
theorem overlap_of_matchSegments (ps qs ss : List String)
    (h1 : matchSegments ps ss = true) (h2 : matchSegments qs ss = true) :
    overlap ps qs = true := by
  induction ss generalizing ps qs with
  | nil =>
    cases ps with
    | nil =>
      cases qs with
      | nil => rfl
      | cons q qs => simp [matchSegments] at h2
    | cons p ps => simp [matchSegments] at h1
  | cons s ss ih =>
    cases ps with
    | nil => simp [matchSegments] at h1
    | cons p ps =>
      cases qs with
      | nil => simp [matchSegments] at h2
      | cons q qs =>
        simp only [matchSegments, Bool.and_eq_true] at h1 h2
        simp only [overlap, Bool.and_eq_true, ih ps qs h1.2 h2.2, and_true]
        unfold matchSegment at h1 h2
        by_cases hp : p.data.head? = some ':'
        · simp [hp]
        · by_cases hq : q.data.head? = some ':'
          · simp [hq]
          · simp only [hp, hq, if_false] at h1 h2
            have e1 : p = s := by simpa using h1.1
            have e2 : q = s := by simpa using h2.1
            simp [e1, e2]

/-- Two routes of a table that match the same request agree in method and overlap in
pattern. -/
theorem overlap_of_matches {α : Type} (r1 r2 : RouteInfo α) (method path : String)
    (h1 : r1.matches method path = true) (h2 : r2.matches method path = true) :
    r1.Method = r2.Method ∧
      overlap (strings.Split r1.Path '/') (strings.Split r2.Path '/') = true := by
  simp only [RouteInfo.matches, Bool.and_eq_true, beq_iff_eq] at h1 h2
  exact ⟨h1.1.trans h2.1.symm, overlap_of_matchSegments _ _ _ h1.2 h2.2⟩

end gin

namespace gateway

open gin (RouteInfo)

set_option maxRecDepth 100000 in
/-- No two entries of the gateway table agree in method and overlap in pattern. -/
theorem SetupRoutes_disjoint :
    ∀ r1 ∈ GatewayServer.SetupRoutes, ∀ r2 ∈ GatewayServer.SetupRoutes,
      r1.Method = r2.Method →
      gin.overlap (strings.Split r1.Path '/') (strings.Split r2.Path '/') = true → r1 = r2 := by
  decide

end gateway

namespace strings

theorem splitChars_snoc (sep : Char) (l : List Char) :
    splitChars sep (l ++ [sep]) = splitChars sep l ++ [[]] := by
  induction l with
  | nil => simp [splitChars]
  | cons c cs ih =>
    by_cases hc : c = sep
    · simp [splitChars, hc]
      simpa [hc] using ih
    · have hne := splitChars_ne_nil sep cs
      cases hs : splitChars sep cs with
      | nil => exact absurd hs hne
      | cons p ps =>
        rw [hs] at ih
        simp [splitChars, hc, ih, hs]

theorem Split_snoc (path : String) : Split (path ++ "/") '/' = Split path '/' ++ [""] := by
  have hd : (path ++ "/").data = path.data ++ ['/'] := rfl
  unfold Split
  rw [hd, splitChars_snoc]
  simp

end strings

namespace gin

theorem lastMatchesEmpty_of_matchSegments (ps ss : List String)
    (h : matchSegments ps (ss ++ [""]) = true) : lastMatchesEmpty ps = true := by
  induction ss generalizing ps with
  | nil =>
    cases ps with
    | nil => simp [matchSegments] at h
    | cons p ps =>
      cases ps with
      | nil => simpa [matchSegments, lastMatchesEmpty] using h
      | cons q qs => simp [matchSegments] at h
  | cons s ss ih =>
    cases ps with
    | nil => simp [matchSegments] at h
    | cons p ps =>
      simp only [List.cons_append, matchSegments, Bool.and_eq_true] at h
      cases ps with
      | nil =>
        cases ss <;> simp [matchSegments] at h
      | cons q qs =>
        simp only [lastMatchesEmpty]
        exact ih (q :: qs) h.2

/-- In a table none of whose patterns ends in an empty segment, no route matches a path
that ends in a slash. -/
theorem resolve_slash_none {α : Type} (routes : List (RouteInfo α))
    (hroutes : ∀ r ∈ routes, lastMatchesEmpty (strings.Split r.Path '/') = false)
    (method path : String) : resolve routes method (path ++ "/") = none := by
  unfold resolve
  rw [List.find?_eq_none]
  intro r hr hm
  simp only [RouteInfo.matches, Bool.and_eq_true, matchPath, strings.Split_snoc] at hm
  have := lastMatchesEmpty_of_matchSegments _ _ hm.2
  rw [hroutes r hr] at this
  cases this

/-- A segment matches itself, as a literal or as a parameter. -/
theorem matchSegment_self (a : String) : matchSegment a a = true := by
  unfold matchSegment
  by_cases h : a.data.head? = some ':'
  · simp only [h, if_true, bne_iff_ne, ne_eq]
    intro e
    rw [e] at h
    cases h
  · simp [h]

theorem toggleTrailingSlash_of_no_slash (path : String) (h : path.data.getLast? ≠ some '/') :
    toggleTrailingSlash path = path ++ "/" := by
  simp [toggleTrailingSlash, h]

end gin

namespace gateway

open gin (RouteInfo)

theorem SetupRoutes_no_empty_last :
    ∀ r ∈ GatewayServer.SetupRoutes, gin.lastMatchesEmpty (strings.Split r.Path '/') = false := by
  decide

theorem SetupRoutes_methods :
    ∀ r ∈ GatewayServer.SetupRoutes, r.Method = "GET" ∨ r.Method = "POST" := by
  decide

/-- A matching entry of the gateway table is the entry every reordering of the table
resolves to. -/
theorem resolve_of_matches (routes : List (RouteInfo Handler))
    (hperm : routes.Perm GatewayServer.SetupRoutes) (method path : String)
    (r : RouteInfo Handler) (hr : r ∈ GatewayServer.SetupRoutes)
    (hm : r.matches method path = true) : gin.resolve routes method path = some r := by
  apply gin.find?_eq_some_of_unique _ _ _ (hperm.mem_iff.2 hr) hm
  intro b hb hbm
  obtain ⟨h1, h2⟩ := gin.overlap_of_matches b r method path hbm hm
  exact SetupRoutes_disjoint b (hperm.mem_iff.1 hb) r hr h1 h2

/-- A path made of a literal first segment and one further non-empty segment. -/
theorem split_two (a id : String) (ha : '/' ∉ a.data) (hid : '/' ∉ id.data) :
    strings.Split ("/" ++ a ++ "/" ++ id) '/' = ["", a, id] := by
  have hd : ("/" ++ a ++ "/" ++ id).data = [] ++ '/' :: (a.data ++ '/' :: id.data) := by
    simp [String.data_append]
  unfold strings.Split
  rw [hd, strings.splitChars_append _ _ _ (by simp), strings.splitChars_append _ _ _ ha,
    strings.splitChars_of_not_mem _ _ hid]
  rfl

end gateway

/-! ## A token the library wrote, read back by the library -/

namespace jwt

theorem GetSigningMethod_Alg (m : SigningMethod) : GetSigningMethod m.Alg = some m := by
  cases m <;> rfl

theorem split_three (a b c : String) (ha : '.' ∉ a.data) (hb : '.' ∉ b.data)
    (hc : '.' ∉ c.data) : strings.Split (a ++ "." ++ b ++ "." ++ c) '.' = [a, b, c] := by
  have hd : (a ++ "." ++ b ++ "." ++ c).data = a.data ++ '.' :: (b.data ++ '.' :: c.data) := by
    simp [String.data_append]
  unfold strings.Split
  rw [hd, strings.splitChars_append _ _ _ ha, strings.splitChars_append _ _ _ hb,
    strings.splitChars_of_not_mem _ _ hc]
  rfl

theorem SignedString_no_space (lib : Codec) (method : SigningMethod) (claims : MapClaims)
    (key : String) (h : lib.RoundTrips method claims key) :
    ' ' ∉ (SignedString lib method claims key).data := by
  obtain ⟨⟨_, h1⟩, ⟨_, h2⟩, ⟨_, h3⟩, _⟩ := h
  have hd : (SignedString lib method claims key).data =
      (lib.encodeHeader method).data ++ '.' :: ((lib.encodeClaims claims).data ++ '.' ::
        (lib.encodeSignature (lib.sign method
          (lib.encodeHeader method ++ "." ++ lib.encodeClaims claims) key)).data) := by
    simp [SignedString, String.data_append]
  rw [hd]
  simp [h1, h2, h3]

/-- A token written with `method`, `claims` and `key` parses without error and valid, to the
claims the struct decodes, when the key function hands out the same key and the registered
claims pass validation. -/
theorem ParseWithClaims_SignedString (lib : Codec) (now : Int) (method : SigningMethod)
    (claims : MapClaims) (key : String) (keyFunc : Keyfunc) (decoded : middleware.Claims)
    (h : lib.RoundTrips method claims key)
    (hclaims : unmarshalClaims claims = some decoded)
    (hkey : keyFunc ⟨method, decoded, false⟩ = .ok key)
    (hvalid : validate now decoded = true) :
    ParseWithClaims lib now (SignedString lib method claims key) keyFunc =
      .ok ⟨method, decoded, true⟩ := by
  obtain ⟨⟨h1, _⟩, ⟨h2, _⟩, ⟨h3, _⟩, h4, ⟨m, h5, hm⟩, h6, h7⟩ := h
  have hs := split_three _ _ _ h1 h2 h3
  have hun : unmarshalClaims m = some decoded := by
    rw [← hclaims]
    simp only [unmarshalClaims, stringField, dateField, hm]
  unfold ParseWithClaims
  simp only [SignedString, hs, h4, h5, Option.some_bind, hun, GetSigningMethod_Alg, h6, hkey,
    h7, hvalid, if_true]

end jwt

theorem sample.codec_roundTrips :
    sample.codec.RoundTrips .HS256 (auth.tokenClaims 1000 sample.user)
      "your-secret-key-change-in-production" := by
  unfold jwt.Codec.RoundTrips
  refine ⟨by decide, by decide, by decide, rfl, ⟨_, rfl, fun _ => rfl⟩, rfl, rfl⟩

/-! ## The claims -/

open gin middleware gateway

/-- C1. Whenever the Authorization header is missing (empty), is malformed (not two pieces
around one space, or a first piece other than `Bearer`), or carries a token for which the
parser returns an error or a token that is not valid, `AuthMiddleware` answers 401 with an
error message and aborts, and does nothing else: it stores no key and does not call `Next`.
Served as the head of any handler chain, the request ends with that one 401 response, an
empty key map, and no handler after the middleware entered. -/
theorem C1_unverified_request_is_rejected (parse : jwt.Parser) (c : Context)
    (hfail : c.GetHeader "Authorization" = "" ∨
      (strings.Split (c.GetHeader "Authorization") ' ').length ≠ 2 ∨
      (strings.Split (c.GetHeader "Authorization") ' ').getD 0 "" ≠ "Bearer" ∨
      (∃ e, parse ((strings.Split (c.GetHeader "Authorization") ' ').getD 1 "") keyFunc =
        .error e) ∨
      (∃ t, parse ((strings.Split (c.GetHeader "Authorization") ' ').getD 1 "") keyFunc =
        .ok t ∧ t.Valid = false)) :
    ∃ msg : String,
      AuthMiddleware parse c = [.JSON 401 [("error", .str msg)], .Abort] ∧
      ∀ (rest : List HandlerFunc) (fuel : Nat), rest.length < 63 →
        gin.serve (AuthMiddleware parse :: rest) (fuel + 1) c.Request =
          ⟨c.Request, 64, [], [(401, [("error", .str msg)])], [0]⟩ := by
  have key : ∃ msg : String, AuthMiddleware parse c = [.JSON 401 [("error", .str msg)], .Abort] := by
    by_cases h1 : c.GetHeader "Authorization" = ""
    · exact ⟨_, AuthMiddleware_missing parse c h1⟩
    by_cases h2 : (strings.Split (c.GetHeader "Authorization") ' ').length ≠ 2 ∨
        (strings.Split (c.GetHeader "Authorization") ' ').getD 0 "" ≠ "Bearer"
    · exact ⟨_, AuthMiddleware_invalid parse c h1 h2⟩
    refine ⟨"invalid token", ?_⟩
    simp only [AuthMiddleware, h1, h2, if_false]
    rcases hfail with h | h | h | ⟨e, he⟩ | ⟨t, ht, hv⟩
    · exact absurd h h1
    · exact absurd (Or.inl h) h2
    · exact absurd (Or.inr h) h2
    · rw [he]
    · rw [ht]; simp [hv]
  obtain ⟨msg, hmsg⟩ := key
  refine ⟨msg, hmsg, fun rest fuel hlen => ?_⟩
  apply gin.serve_abort _ _ _ _ _ _ _ hlen
  rw [← hmsg]
  exact AuthMiddleware_request parse _ _ rfl

/-- C1 at sample requests: no header at all, a header without the `Bearer` word, a token
the parser refuses, each in front of a handler that would answer 200. -/
theorem C1_unverified_request_is_rejected_witness :
    (∃ msg : String,
      AuthMiddleware (jwt.ParseWithClaims sample.codec 2000) ⟨⟨"GET", "/bookings", []⟩, 0, [], [], []⟩ =
        [.JSON 401 [("error", .str msg)], .Abort] ∧
      ∀ (rest : List HandlerFunc) (fuel : Nat), rest.length < 63 →
        gin.serve (AuthMiddleware (jwt.ParseWithClaims sample.codec 2000) :: rest) (fuel + 1)
            ⟨"GET", "/bookings", []⟩ =
          ⟨⟨"GET", "/bookings", []⟩, 64, [], [(401, [("error", .str msg)])], [0]⟩) ∧
    (∃ msg : String,
      AuthMiddleware (jwt.ParseWithClaims sample.codec 2000)
          ⟨sample.request "Bearer not-a-token", 0, [], [], []⟩ =
        [.JSON 401 [("error", .str msg)], .Abort] ∧
      ∀ (rest : List HandlerFunc) (fuel : Nat), rest.length < 63 →
        gin.serve (AuthMiddleware (jwt.ParseWithClaims sample.codec 2000) :: rest) (fuel + 1)
            (sample.request "Bearer not-a-token") =
          ⟨sample.request "Bearer not-a-token", 64, [], [(401, [("error", .str msg)])], [0]⟩) :=
  ⟨C1_unverified_request_is_rejected (jwt.ParseWithClaims sample.codec 2000)
      ⟨⟨"GET", "/bookings", []⟩, 0, [], [], []⟩ (Or.inl rfl),
    C1_unverified_request_is_rejected (jwt.ParseWithClaims sample.codec 2000)
      ⟨sample.request "Bearer not-a-token", 0, [], [], []⟩
      (Or.inr (Or.inr (Or.inr (Or.inl ⟨_, rfl⟩))))⟩

/-- C2, as stated, fails at the header `Bearer ` (the word, one space, an empty token).  That
header is not `Bearer`, one space and a non-empty token without a space; yet it passes the
header check and its empty token is handed to the parser: with the library's parser the
answer is the 401 `invalid token` of the parse branch, not one of the two header
rejections, and with a parser that accepts the empty token the request reaches `Next`. -/
theorem C2_empty_token_is_parsed :
    (¬ ∃ tok : String, tok ≠ "" ∧ ' ' ∉ tok.data ∧ "Bearer " = "Bearer " ++ tok) ∧
    AuthMiddleware (jwt.ParseWithClaims sample.codec 2000)
        ⟨sample.request "Bearer ", 0, [], [], []⟩ =
      [.JSON 401 [("error", "invalid token")], .Abort] ∧
    AuthMiddleware (fun _ _ => .ok ⟨.HS256, ⟨"u", "e", none, none⟩, true⟩)
        ⟨sample.request "Bearer ", 0, [], [], []⟩ =
      [.Set "user_id" "u", .Set "email" "e", .Next] := by
  refine ⟨?_, rfl, rfl⟩
  rintro ⟨tok, hne, _, h⟩
  exact hne (bearer_inj "" tok h).symm

/-- C2, amended.  For every Authorization header value that is not the word `Bearer`, one
space, and a token without a space (the token may be empty), `AuthMiddleware` answers with
a header rejection whatever the parser is, so without consulting it: 401
`missing authorization header` for the empty header, 401 `invalid authorization header`
for every other one. -/
theorem C2_malformed_header_is_rejected (c : Context)
    (hform : ¬ ∃ tok : String, ' ' ∉ tok.data ∧ c.GetHeader "Authorization" = "Bearer " ++ tok) :
    (c.GetHeader "Authorization" = "" ∧ ∀ parse : jwt.Parser,
        AuthMiddleware parse c = [.JSON 401 [("error", "missing authorization header")], .Abort]) ∨
    (c.GetHeader "Authorization" ≠ "" ∧ ∀ parse : jwt.Parser,
        AuthMiddleware parse c = [.JSON 401 [("error", "invalid authorization header")], .Abort]) := by
  by_cases h1 : c.GetHeader "Authorization" = ""
  · exact Or.inl ⟨h1, fun parse => AuthMiddleware_missing parse c h1⟩
  · refine Or.inr ⟨h1, fun parse => AuthMiddleware_invalid parse c h1 ?_⟩
    by_contra hn
    apply hform
    apply (strings.split_bearer _).1
    constructor
    · by_contra h; exact hn (Or.inl h)
    · by_contra h; exact hn (Or.inr h)

/-- C2, amended, at the headers the claim lists that the header check does reject: the
empty header, `Bearer` alone, a lower-case `bearer tok`, and `Bearer  tok` with two spaces. -/
theorem C2_malformed_header_is_rejected_witness :
    (∀ parse : jwt.Parser, AuthMiddleware parse ⟨sample.request "", 0, [], [], []⟩ =
      [.JSON 401 [("error", "missing authorization header")], .Abort]) ∧
    (∀ parse : jwt.Parser, AuthMiddleware parse ⟨sample.request "Bearer", 0, [], [], []⟩ =
      [.JSON 401 [("error", "invalid authorization header")], .Abort]) ∧
    (∀ parse : jwt.Parser, AuthMiddleware parse ⟨sample.request "bearer tok", 0, [], [], []⟩ =
      [.JSON 401 [("error", "invalid authorization header")], .Abort]) ∧
    (∀ parse : jwt.Parser, AuthMiddleware parse ⟨sample.request "Bearer  tok", 0, [], [], []⟩ =
      [.JSON 401 [("error", "invalid authorization header")], .Abort]) := by
  have notBearer : ∀ hdr : String,
      ¬ ((strings.Split hdr ' ').length = 2 ∧ (strings.Split hdr ' ').getD 0 "" = "Bearer") →
      ¬ ∃ tok : String, ' ' ∉ tok.data ∧
        Context.GetHeader ⟨sample.request hdr, 0, [], [], []⟩ "Authorization" = "Bearer " ++ tok :=
    fun hdr h hex => h ((strings.split_bearer hdr).2 hex)
  refine ⟨?_, ?_, ?_, ?_⟩
  · exact (C2_malformed_header_is_rejected ⟨sample.request "", 0, [], [], []⟩
      (notBearer "" (by decide))).elim (fun h => h.2) (fun h => absurd rfl h.1)
  · exact (C2_malformed_header_is_rejected ⟨sample.request "Bearer", 0, [], [], []⟩
      (notBearer "Bearer" (by decide))).elim (fun h => absurd h.1 (by decide)) (fun h => h.2)
  · exact (C2_malformed_header_is_rejected ⟨sample.request "bearer tok", 0, [], [], []⟩
      (notBearer "bearer tok" (by decide))).elim (fun h => absurd h.1 (by decide)) (fun h => h.2)
  · exact (C2_malformed_header_is_rejected ⟨sample.request "Bearer  tok", 0, [], [], []⟩
      (notBearer "Bearer  tok" (by decide))).elim (fun h => absurd h.1 (by decide)) (fun h => h.2)

/-- C3. For a token whose signing method is not of the HMAC type, the key function returns
an error that names the `alg`, so it does not return the secret; whenever the key function
returns a key, the method is of the HMAC type and the key is the secret; and a header
`Bearer <token string>` whose token string carries that method is answered 401 by
`AuthMiddleware` running the library's parser, whatever the codec and the time. -/
theorem C3_non_hmac_gets_no_key (token : jwt.Token) (hm : token.Method.isHMAC = false) :
    keyFunc token = .error ("unexpected signing method: " ++ token.Method.Alg) ∧
    (∀ (t : jwt.Token) (key : String), keyFunc t = .ok key →
      t.Method.isHMAC = true ∧ key = JWTSecret) ∧
    (∀ (lib : jwt.Codec) (now : Int) (c : Context) (s : String),
      c.GetHeader "Authorization" = "Bearer " ++ s →
      jwt.methodOf lib s = some token.Method →
      ∃ msg : String, AuthMiddleware (jwt.ParseWithClaims lib now) c =
        [.JSON 401 [("error", .str msg)], .Abort]) := by
  refine ⟨by simp [keyFunc, hm], ?_, ?_⟩
  · intro t key h
    unfold keyFunc at h
    by_cases ht : t.Method.isHMAC = true
    · simp [ht] at h
      exact ⟨ht, h.symm⟩
    · simp [ht] at h
  · intro lib now c s hhdr hmeth
    by_cases hsp : ' ' ∈ s.data
    · refine ⟨_, AuthMiddleware_invalid _ c (hhdr ▸ bearer_ne_empty s) ?_⟩
      by_contra hn
      have hpass : (strings.Split (c.GetHeader "Authorization") ' ').length = 2 ∧
          (strings.Split (c.GetHeader "Authorization") ' ').getD 0 "" = "Bearer" :=
        ⟨by by_contra h; exact hn (Or.inl h), by by_contra h; exact hn (Or.inr h)⟩
      obtain ⟨tok, htok, heq⟩ := (strings.split_bearer _).1 hpass
      rw [hhdr] at heq
      rw [bearer_inj s tok heq] at hsp
      exact htok hsp
    · refine ⟨"invalid token", ?_⟩
      rw [AuthMiddleware_bearer _ c s hhdr hsp]
      have herr : ∃ e, jwt.ParseWithClaims lib now s keyFunc = .error e := by
        unfold jwt.methodOf at hmeth
        unfold jwt.ParseWithClaims
        split at hmeth
        · rename_i h p sg hsplit
          cases hh : lib.decodeHeader h with
          | none => simp [hh] at hmeth
          | some alg =>
            rw [hh] at hmeth
            change jwt.GetSigningMethod alg = some token.Method at hmeth
            simp only [hmeth]
            cases (lib.decodeClaims p).bind jwt.unmarshalClaims with
            | none => exact ⟨_, rfl⟩
            | some claims =>
              cases lib.decodeSignature sg with
              | none => exact ⟨_, rfl⟩
              | some sig => simp [keyFunc, hm]
        · cases hmeth
      obtain ⟨e, he⟩ := herr
      rw [he]

/-- C3 at a token whose header names RS256. -/
theorem C3_non_hmac_gets_no_key_witness :
    keyFunc ⟨.RS256, ⟨"user-17", "ann@example", none, none⟩, false⟩ =
      .error ("unexpected signing method: " ++ "RS256") ∧
    (∀ (t : jwt.Token) (key : String), keyFunc t = .ok key →
      t.Method.isHMAC = true ∧ key = JWTSecret) ∧
    (∀ (lib : jwt.Codec) (now : Int) (c : Context) (s : String),
      c.GetHeader "Authorization" = "Bearer " ++ s →
      jwt.methodOf lib s = some .RS256 →
      ∃ msg : String, AuthMiddleware (jwt.ParseWithClaims lib now) c =
        [.JSON 401 [("error", .str msg)], .Abort]) :=
  C3_non_hmac_gets_no_key ⟨.RS256, ⟨"user-17", "ann@example", none, none⟩, false⟩ rfl

/-- C4. A request whose header is `Bearer`, one space and a token without a space, where the
parser returns that token without error and valid, with claims `UserID` u and `Email` e:
`AuthMiddleware` makes exactly three calls, `Set("user_id", u)`, `Set("email", e)`, `Next()`,
so it writes no response.  Served in front of a handler that neither aborts nor calls `Next`,
that handler is entered exactly once, with exactly the two keys stored and nothing written. -/
theorem C4_valid_token_reaches_next (parse : jwt.Parser) (c : Context) (tok : String)
    (token : jwt.Token)
    (hhdr : c.GetHeader "Authorization" = "Bearer " ++ tok) (htok : ' ' ∉ tok.data)
    (hparse : parse tok keyFunc = .ok token) (hvalid : token.Valid = true) :
    AuthMiddleware parse c =
        [.Set "user_id" token.Claims.UserID, .Set "email" token.Claims.Email, .Next] ∧
      ∀ (next : HandlerFunc) (fuel : Nat),
        (∀ d, ∀ op ∈ next d, op ≠ Op.Next ∧ op ≠ Op.Abort) →
        gin.serve [AuthMiddleware parse, next] (fuel + 2) c.Request =
          { Context.exec id
              ⟨c.Request, 1, [("email", token.Claims.Email), ("user_id", token.Claims.UserID)], [],
                [0, 1]⟩
              (next ⟨c.Request, 1,
                [("email", token.Claims.Email), ("user_id", token.Claims.UserID)], [], [0, 1]⟩)
            with index := 3 } := by
  have key : AuthMiddleware parse c =
      [.Set "user_id" token.Claims.UserID, .Set "email" token.Claims.Email, .Next] := by
    rw [AuthMiddleware_bearer parse c tok hhdr htok, hparse]
    simp [hvalid]
  refine ⟨key, fun next fuel hnext => ?_⟩
  apply gin.serve_next _ _ _ _ _ _ _ _ (by decide) _ hnext
  rw [← key]
  exact AuthMiddleware_request parse _ _ rfl

/-- C4 at the token the auth service issues to the sample user, presented 1000 seconds
later in front of a handler that answers 200: the two keys are stored, the handler behind
the middleware is entered once and its 200 is the only response written. -/
theorem C4_valid_token_reaches_next_witness :
    AuthMiddleware (jwt.ParseWithClaims sample.codec 2000)
        ⟨sample.request ("Bearer " ++ sample.token), 0, [], [], []⟩ =
        [.Set "user_id" "user-17", .Set "email" "ann@example", .Next] ∧
      gin.serve [AuthMiddleware (jwt.ParseWithClaims sample.codec 2000), sample.leaf] 2
          (sample.request ("Bearer " ++ sample.token)) =
        ⟨sample.request ("Bearer " ++ sample.token), 3,
          [("email", "ann@example"), ("user_id", "user-17")], [(200, [("status", "ok")])],
          [0, 1]⟩ :=
  have h := C4_valid_token_reaches_next (jwt.ParseWithClaims sample.codec 2000)
    ⟨sample.request ("Bearer " ++ sample.token), 0, [], [], []⟩ sample.token
    ⟨.HS256, ⟨"user-17", "ann@example", some 87400, none⟩, true⟩ rfl (by decide) rfl rfl
  ⟨h.1, (h.2 sample.leaf 0 (fun _ op hop => by
    have e : op = Op.JSON 200 [("status", "ok")] := by simpa [sample.leaf] using hop
    rw [e]
    exact ⟨by decide, by decide⟩)).trans rfl⟩

/-- C5. A request that an entry of the gateway table matches (equal method, pattern matching
the path segment by segment, `:id` binding one non-empty segment) resolves, first match in
declaration order, to that entry; no other entry matches it; and every reordering of the
table resolves it to the same entry.  The entries give `http://auth-service:3001` for
`POST /auth/register`, `POST /auth/login`, `GET /auth/validate`,
`http://consulting-service:3002` for `GET` and `POST /consultants` and `GET /consultants/:id`,
`http://booking-service:3003` for `GET` and `POST /bookings` and `GET /bookings/:id`. -/
theorem C5_resolve_unique_backend (method path : String) (r : RouteInfo Handler)
    (hr : r ∈ GatewayServer.SetupRoutes) (hm : r.matches method path = true) :
    gin.resolve GatewayServer.SetupRoutes method path = some r ∧
    (∀ r2 ∈ GatewayServer.SetupRoutes, r2.matches method path = true → r2 = r) ∧
    (∀ routes : List (RouteInfo Handler), routes.Perm GatewayServer.SetupRoutes →
      gin.resolve routes method path = some r) ∧
    gin.resolve GatewayServer.SetupRoutes "POST" "/auth/register" =
      some ⟨"POST", "/auth/register", .proxyRequest "http://auth-service:3001"⟩ ∧
    gin.resolve GatewayServer.SetupRoutes "POST" "/auth/login" =
      some ⟨"POST", "/auth/login", .proxyRequest "http://auth-service:3001"⟩ ∧
    gin.resolve GatewayServer.SetupRoutes "GET" "/auth/validate" =
      some ⟨"GET", "/auth/validate", .proxyRequest "http://auth-service:3001"⟩ ∧
    gin.resolve GatewayServer.SetupRoutes "GET" "/consultants" =
      some ⟨"GET", "/consultants", .proxyRequest "http://consulting-service:3002"⟩ ∧
    gin.resolve GatewayServer.SetupRoutes "POST" "/consultants" =
      some ⟨"POST", "/consultants", .proxyRequest "http://consulting-service:3002"⟩ ∧
    (∀ id : String, id ≠ "" → '/' ∉ id.data →
      gin.resolve GatewayServer.SetupRoutes "GET" ("/consultants/" ++ id) =
        some ⟨"GET", "/consultants/:id", .proxyRequest "http://consulting-service:3002"⟩) ∧
    gin.resolve GatewayServer.SetupRoutes "GET" "/bookings" =
      some ⟨"GET", "/bookings", .proxyRequest "http://booking-service:3003"⟩ ∧
    gin.resolve GatewayServer.SetupRoutes "POST" "/bookings" =
      some ⟨"POST", "/bookings", .proxyRequest "http://booking-service:3003"⟩ ∧
    (∀ id : String, id ≠ "" → '/' ∉ id.data →
      gin.resolve GatewayServer.SetupRoutes "GET" ("/bookings/" ++ id) =
        some ⟨"GET", "/bookings/:id", .proxyRequest "http://booking-service:3003"⟩) := by
  have hparam : ∀ (a id : String) (r : RouteInfo Handler), id ≠ "" → '/' ∉ a.data →
      '/' ∉ id.data → r ∈ GatewayServer.SetupRoutes → r.Method = "GET" →
      strings.Split r.Path '/' = ["", a, ":id"] →
      gin.resolve GatewayServer.SetupRoutes "GET" ("/" ++ a ++ "/" ++ id) = some r := by
    intro a id r hne ha hid hmem hmeth hpat
    apply resolve_of_matches _ (List.Perm.refl _) _ _ _ hmem
    unfold RouteInfo.matches gin.matchPath
    rw [hpat, split_two a id ha hid, hmeth]
    have h3 : gin.matchSegment ":id" id = true := by simp [gin.matchSegment, hne]
    simp [gin.matchSegments, gin.matchSegment_self, h3]
  refine ⟨resolve_of_matches _ (List.Perm.refl _) method path r hr hm, ?_,
    fun routes hperm => resolve_of_matches routes hperm method path r hr hm,
    by decide, by decide, by decide, by decide, by decide, ?_, by decide, by decide, ?_⟩
  · intro r2 hr2 hm2
    obtain ⟨h1, h2⟩ := gin.overlap_of_matches r2 r method path hm2 hm
    exact SetupRoutes_disjoint r2 hr2 r hr h1 h2
  · intro id hne hid
    have e : "/consultants/" ++ id = "/" ++ "consultants" ++ "/" ++ id := rfl
    rw [e]
    exact hparam "consultants" id _ hne (by decide) hid (by decide) rfl (by decide)
  · intro id hne hid
    have e : "/bookings/" ++ id = "/" ++ "bookings" ++ "/" ++ id := rfl
    rw [e]
    exact hparam "bookings" id _ hne (by decide) hid (by decide) rfl (by decide)

/-- C5 at `GET /consultants/42`, matched by the entry `GET /consultants/:id`. -/
theorem C5_resolve_unique_backend_witness :
    gin.resolve GatewayServer.SetupRoutes "GET" "/consultants/42" =
      some ⟨"GET", "/consultants/:id", .proxyRequest "http://consulting-service:3002"⟩ ∧
    (∀ r2 ∈ GatewayServer.SetupRoutes, r2.matches "GET" "/consultants/42" = true →
      r2 = ⟨"GET", "/consultants/:id", .proxyRequest "http://consulting-service:3002"⟩) ∧
    (∀ routes : List (RouteInfo Handler), routes.Perm GatewayServer.SetupRoutes →
      gin.resolve routes "GET" "/consultants/42" =
        some ⟨"GET", "/consultants/:id", .proxyRequest "http://consulting-service:3002"⟩) :=
  have h := C5_resolve_unique_backend "GET" "/consultants/42"
    ⟨"GET", "/consultants/:id", .proxyRequest "http://consulting-service:3002"⟩
    (by decide) (by decide)
  ⟨h.1, h.2.1, h.2.2.1⟩

/-- C6, as stated, fails at `GET /consultants/`: no entry of the table matches it (the
segment after the last slash is empty), and the gateway answers with the 301 redirect of
the router's trailing-slash redirection, not with the not-found response. -/
theorem C6_trailing_slash_is_redirected :
    gin.resolve GatewayServer.SetupRoutes "GET" "/consultants/" = none ∧
    GatewayServer.ServeHTTP ⟨"GET", "/consultants/", []⟩ = .redirected 301 ∧
    GatewayServer.ServeHTTP ⟨"GET", "/consultants/", []⟩ ≠ .notFound := by
  decide

/-- C6, amended.  For every method and path that match no entry of the gateway table, no
handler chain of the table runs (so neither a credential verifier nor a proxy handler): the
gateway answers with the not-found response or with a 301 or 307 redirect; it is the
not-found response whenever the path does not end in a slash, and whenever the method is
neither GET nor POST. -/
theorem C6_unmatched_runs_no_handler (req : gin.Request)
    (hno : gin.resolve GatewayServer.SetupRoutes req.Method req.Path = none) :
    (∀ (r : RouteInfo Handler) (c : Context), GatewayServer.ServeHTTP req ≠ .handled r c) ∧
    (GatewayServer.ServeHTTP req = .notFound ∨
      (req.Method = "GET" ∧ GatewayServer.ServeHTTP req = .redirected 301) ∨
      (req.Method = "POST" ∧ GatewayServer.ServeHTTP req = .redirected 307)) ∧
    (req.Path.data.getLast? ≠ some '/' → GatewayServer.ServeHTTP req = .notFound) ∧
    (req.Method ≠ "GET" → req.Method ≠ "POST" → GatewayServer.ServeHTTP req = .notFound) := by
  have hserve : GatewayServer.ServeHTTP req =
      if req.Method ≠ "CONNECT" ∧ req.Path ≠ "/" ∧
          (gin.resolve GatewayServer.SetupRoutes req.Method
            (gin.toggleTrailingSlash req.Path)).isSome then
        .redirected (if req.Method = "GET" then 301 else 307)
      else .notFound := by
    simp only [GatewayServer.ServeHTTP, gin.ServeHTTP, gin.dispatch, hno]
    by_cases hc : req.Method ≠ "CONNECT" ∧ req.Path ≠ "/" ∧
        (gin.resolve GatewayServer.SetupRoutes req.Method
          (gin.toggleTrailingSlash req.Path)).isSome
    · rw [if_pos hc, if_pos hc]
    · rw [if_neg hc, if_neg hc]
  have hnone : req.Method ≠ "GET" → req.Method ≠ "POST" →
      ∀ path, gin.resolve GatewayServer.SetupRoutes req.Method path = none := by
    intro hg hp path
    unfold gin.resolve
    rw [List.find?_eq_none]
    intro r hr hm
    simp only [RouteInfo.matches, Bool.and_eq_true, beq_iff_eq] at hm
    rcases SetupRoutes_methods r hr with h | h
    · exact hg (hm.1 ▸ h)
    · exact hp (hm.1 ▸ h)
  have hcases : GatewayServer.ServeHTTP req = .notFound ∨
      (req.Method = "GET" ∧ GatewayServer.ServeHTTP req = .redirected 301) ∨
      (req.Method = "POST" ∧ GatewayServer.ServeHTTP req = .redirected 307) := by
    by_cases hg : req.Method = "GET"
    · rw [hserve]
      split
      · exact Or.inr (Or.inl ⟨hg, rfl⟩)
      · exact Or.inl rfl
    · by_cases hp : req.Method = "POST"
      · rw [hserve]
        split
        · exact Or.inr (Or.inr ⟨hp, rfl⟩)
        · exact Or.inl rfl
      · left
        rw [hserve, hnone hg hp]
        simp
  refine ⟨?_, hcases, ?_, ?_⟩
  · intro r c h
    rcases hcases with h1 | ⟨_, h1⟩ | ⟨_, h1⟩ <;> rw [h1] at h <;> cases h
  · intro hlast
    rw [hserve, gin.toggleTrailingSlash_of_no_slash _ hlast,
      gin.resolve_slash_none _ SetupRoutes_no_empty_last]
    simp
  · intro hg hp
    rw [hserve, hnone hg hp]
    simp

/-- C6, amended, at the requests the claim lists: `PUT /bookings/1`, `DELETE /consultants`
and `GET /unknown` match no entry and get the not-found response. -/
theorem C6_unmatched_runs_no_handler_witness :
    GatewayServer.ServeHTTP ⟨"PUT", "/bookings/1", []⟩ = .notFound ∧
    GatewayServer.ServeHTTP ⟨"DELETE", "/consultants", []⟩ = .notFound ∧
    GatewayServer.ServeHTTP ⟨"GET", "/unknown", []⟩ = .notFound :=
  ⟨(C6_unmatched_runs_no_handler ⟨"PUT", "/bookings/1", []⟩ (by decide)).2.2.1 (by decide),
    (C6_unmatched_runs_no_handler ⟨"DELETE", "/consultants", []⟩ (by decide)).2.2.2
      (by decide) (by decide),
    (C6_unmatched_runs_no_handler ⟨"GET", "/unknown", []⟩ (by decide)).2.2.1 (by decide)⟩

/-- C7. Every `GET /health` request to the gateway, whatever its headers, is served by the
health entry alone: one handler entered, the response 200 with the body
`"status": "healthy"`, no key stored. -/
theorem C7_health_always_healthy (req : gin.Request) (hm : req.Method = "GET")
    (hp : req.Path = "/health") :
    GatewayServer.ServeHTTP req =
      .handled ⟨"GET", "/health", .health⟩
        ⟨req, 1, [], [(200, [("status", "healthy")])], [0]⟩ := by
  have hres : gin.resolve GatewayServer.SetupRoutes req.Method req.Path =
      some ⟨"GET", "/health", .health⟩ := by
    rw [hm, hp]; decide
  simp only [GatewayServer.ServeHTTP, gin.ServeHTTP, gin.dispatch, hres]
  rfl

/-- C7 at a health request that carries an Authorization header. -/
theorem C7_health_always_healthy_witness :
    GatewayServer.ServeHTTP ⟨"GET", "/health", [("Authorization", "Bearer not-a-token")]⟩ =
      .handled ⟨"GET", "/health", .health⟩
        ⟨⟨"GET", "/health", [("Authorization", "Bearer not-a-token")]⟩, 1, [],
          [(200, [("status", "healthy")])], [0]⟩ :=
  C7_health_always_healthy ⟨"GET", "/health", [("Authorization", "Bearer not-a-token")]⟩ rfl rfl

/-- C8, as stated, fails at `GET /bookings`: the gateway answers 200 with the body
`"message": "Proxying to http://booking-service:3003", "path": "/bookings"`, while the
booking service answers the same request on an empty table with 200 and
`"bookings": []`; what the gateway writes is not what the backend writes. -/
theorem C8_gateway_does_not_relay :
    GatewayServer.ServeHTTP ⟨"GET", "/bookings", []⟩ =
      .handled ⟨"GET", "/bookings", .proxyRequest "http://booking-service:3003"⟩
        ⟨⟨"GET", "/bookings", []⟩, 1, [],
          [(200, [("message", "Proxying to http://booking-service:3003"),
            ("path", "/bookings")])], [0]⟩ ∧
    booking.BookingServer.handleGetBookings (.ok []) = [.JSON 200 [("bookings", .objs [])]] ∧
    (gin.serve [fun _ => booking.BookingServer.handleGetBookings (.ok [])] 1
        ⟨"GET", "/bookings", []⟩).written ≠
      (gin.serve [GatewayServer.proxyRequest "http://booking-service:3003"] 1
        ⟨"GET", "/bookings", []⟩).written := by
  decide

/-- C8, amended.  For every request that matches a proxied gateway entry with target
`targetURL`, the gateway contacts no backend: the handler of the entry alone runs and
writes status 200 with the JSON body `"message": "Proxying to <targetURL>"`,
`"path": <the request path>`, whatever a backend would answer. -/
theorem C8_proxy_answers_itself (req : gin.Request) (r : RouteInfo Handler)
    (targetURL : String)
    (hres : gin.resolve GatewayServer.SetupRoutes req.Method req.Path = some r)
    (hproxy : r.Handler = .proxyRequest targetURL) :
    GatewayServer.ServeHTTP req =
      .handled r ⟨req, 1, [],
        [(200, [("message", .str ("Proxying to " ++ targetURL)), ("path", .str req.Path)])],
        [0]⟩ := by
  simp only [GatewayServer.ServeHTTP, gin.ServeHTTP, gin.dispatch, hres, hproxy, chain]
  rfl

/-- C8, amended, at `GET /bookings` without an Authorization header. -/
theorem C8_proxy_answers_itself_witness :
    GatewayServer.ServeHTTP ⟨"GET", "/bookings", []⟩ =
      .handled ⟨"GET", "/bookings", .proxyRequest "http://booking-service:3003"⟩
        ⟨⟨"GET", "/bookings", []⟩, 1, [],
          [(200, [("message", .str ("Proxying to " ++ "http://booking-service:3003")),
            ("path", .str "/bookings")])], [0]⟩ :=
  C8_proxy_answers_itself ⟨"GET", "/bookings", []⟩
    ⟨"GET", "/bookings", .proxyRequest "http://booking-service:3003"⟩
    "http://booking-service:3003" (by decide) rfl

/-- C9. The token `handleLogin` and `handleRegister` issue for user id `id` and email
`email` at time `issued` is accepted by `AuthMiddleware` at every time `now` before
`issued` plus 24 hours, with `user_id = id` and `email = email` stored: the issuing method
HS256 is of the HMAC type, the key function returns for it the very string the auth service
signs with, and the issued claims decode into `Claims` with `UserID = id`, `Email = email`
and the expiry.  The library is assumed to round-trip the token it wrote (`RoundTrips`). -/
theorem C9_issued_token_is_accepted (lib : jwt.Codec) (issued now : Int)
    (id email password : String) (c : Context)
    (hlib : lib.RoundTrips .HS256 (auth.tokenClaims issued ⟨id, email, password⟩)
      "your-secret-key-change-in-production")
    (hhdr : c.GetHeader "Authorization" =
      "Bearer " ++ auth.tokenString lib issued ⟨id, email, password⟩)
    (hnow : now < issued + 24 * 3600) :
    (∀ (req : auth.LoginRequest) (query : String → String → Option (String × String)),
      query req.Email req.Password = some (id, email) →
      auth.AuthServer.handleLogin lib issued (.ok req) query =
        [.JSON 200 [("token", .str (auth.tokenString lib issued ⟨id, email, password⟩))]]) ∧
    (∀ insert : auth.User → Bool, insert ⟨id, email, password⟩ = true →
      auth.AuthServer.handleRegister lib issued id (.ok ⟨email, password⟩) insert =
        [.JSON 201 [("token", .str (auth.tokenString lib issued ⟨id, email, password⟩))]]) ∧
    jwt.SigningMethod.HS256.isHMAC = true ∧
    (∀ claims : Claims,
      keyFunc ⟨.HS256, claims, false⟩ = .ok "your-secret-key-change-in-production") ∧
    jwt.unmarshalClaims (auth.tokenClaims issued ⟨id, email, password⟩) =
      some ⟨id, email, some (issued + 24 * 3600), none⟩ ∧
    AuthMiddleware (jwt.ParseWithClaims lib now) c =
      [.Set "user_id" id, .Set "email" email, .Next] := by
  have hun : jwt.unmarshalClaims (auth.tokenClaims issued ⟨id, email, password⟩) =
      some ⟨id, email, some (issued + 24 * 3600), none⟩ := by
    simp [jwt.unmarshalClaims, jwt.stringField, jwt.dateField, auth.tokenClaims, List.lookup]
  refine ⟨?_, ?_, rfl, fun _ => rfl, hun, ?_⟩
  · intro req query hq
    simp only [auth.AuthServer.handleLogin, hq]
    rfl
  · intro insert hi
    simp [auth.AuthServer.handleRegister, hi]
  · have hparse := jwt.ParseWithClaims_SignedString lib now .HS256
      (auth.tokenClaims issued ⟨id, email, password⟩) "your-secret-key-change-in-production"
      keyFunc ⟨id, email, some (issued + 24 * 3600), none⟩ hlib hun rfl
      (by simp only [jwt.validate]; simp; omega)
    rw [AuthMiddleware_bearer _ c _ hhdr (jwt.SignedString_no_space _ _ _ _ hlib)]
    unfold auth.tokenString
    rw [hparse]
    rfl

/-- C9 with the sample codec: the token issued to `user-17` at time 1000 and presented at
time 2000. -/
theorem C9_issued_token_is_accepted_witness :
    (∀ (req : auth.LoginRequest) (query : String → String → Option (String × String)),
      query req.Email req.Password = some ("user-17", "ann@example") →
      auth.AuthServer.handleLogin sample.codec 1000 (.ok req) query =
        [.JSON 200 [("token", .str sample.token)]]) ∧
    (∀ insert : auth.User → Bool, insert ⟨"user-17", "ann@example", "pw"⟩ = true →
      auth.AuthServer.handleRegister sample.codec 1000 "user-17" (.ok ⟨"ann@example", "pw"⟩) insert =
        [.JSON 201 [("token", .str sample.token)]]) ∧
    jwt.SigningMethod.HS256.isHMAC = true ∧
    (∀ claims : Claims,
      keyFunc ⟨.HS256, claims, false⟩ = .ok "your-secret-key-change-in-production") ∧
    jwt.unmarshalClaims (auth.tokenClaims 1000 ⟨"user-17", "ann@example", "pw"⟩) =
      some ⟨"user-17", "ann@example", some (1000 + 24 * 3600), none⟩ ∧
    AuthMiddleware (jwt.ParseWithClaims sample.codec 2000)
        ⟨sample.request ("Bearer " ++ sample.token), 0, [], [], []⟩ =
      [.Set "user_id" "user-17", .Set "email" "ann@example", .Next] :=
  C9_issued_token_is_accepted sample.codec 1000 2000 "user-17" "ann@example" "pw"
    ⟨sample.request ("Bearer " ++ sample.token), 0, [], [], []⟩
    sample.codec_roundTrips rfl (by decide)

/-- C10 at the failing inputs.  Of the ten gateway entries, the three with target
`http://auth-service:3001` have no counterpart in the auth service: it registers
`POST /register`, `POST /login`, `GET /validate`, so `POST /auth/register`,
`POST /auth/login` and `GET /auth/validate`, sent on with method and path unchanged, match
no route there; the six entries of the consulting and booking services are registered by
them with the same method and pattern. -/
theorem C10_auth_entries_not_registered :
    GatewayServer.SetupRoutes.map mirrored =
      [true, false, false, false, true, true, true, true, true, true] ∧
    gin.dispatch auth.AuthServer.SetupRoutes "POST" "/auth/register" = .notFound ∧
    gin.dispatch auth.AuthServer.SetupRoutes "POST" "/auth/login" = .notFound ∧
    gin.dispatch auth.AuthServer.SetupRoutes "GET" "/auth/validate" = .notFound ∧
    gin.dispatch auth.AuthServer.SetupRoutes "POST" "/register" =
      .route ⟨"POST", "/register", .handleRegister⟩ := by
  decide

